import Mathlib

/-!
Shallow embedding of the Playback & Playlist State Core of
`src/reproductor_musica.py` (classes `PlaybackState`, `PlaylistManager`, and
the playback-control methods of `VinylPlayer`), together with proofs of the
specification claims about it.

Modelling conventions:
* Wall-clock timestamps and durations (Python floats) are modelled as `ℚ`.
* Python truthiness is translated literally: `if not self.playlist` becomes
  an emptiness test, `if current_track:` on an `Optional[str]` is true only
  for a non-`None`, non-empty string, and the float test
  `if self.playback_state.track_length` is a `≠ 0` test.
* List indexing that can raise `IndexError` is embedded as an
  `Option`-valued operation (`none` = the exception escapes).
* `random.shuffle` is an injected `shuffler` function; where a claim needs
  it, the hypothesis that it permutes its input is stated explicitly.
* The pygame/tkinter calls (`pygame.mixer.music.*`, widget updates) carry
  no core state; the outcome of `pygame.mixer.music.load` is injected as a
  `loadFails` predicate and the duration probe as a `probe` function.
-/

/-- `PlaybackState.__init__` / `reset` field set (source lines 27-37). -/
structure PlaybackState where
  is_playing : Bool
  is_paused : Bool
  track_length : ℚ
  start_time : ℚ
  pause_accum : ℚ
  last_pause : ℚ
deriving DecidableEq

/-- `PlaybackState.reset` (source lines 31-37): the Stopped defaults. -/
def PlaybackState.reset : PlaybackState :=
  { is_playing := false, is_paused := false, track_length := 0,
    start_time := 0, pause_accum := 0, last_pause := 0 }

/-- `PlaylistManager` fields (source lines 40-46). -/
structure PlaylistManager where
  playlist : List String
  original_order : List String
  current_index : Int
  repeat_mode : Nat
  shuffle_mode : Bool
deriving DecidableEq

/-- `PlaylistManager.__init__` (source lines 41-46). -/
def initPlaylistManager : PlaylistManager :=
  { playlist := [], original_order := [], current_index := -1,
    repeat_mode := 0, shuffle_mode := false }

/-- `AudioFormats.EXTENSIONS` (source line 23). -/
def EXTENSIONS : List String :=
  [".mp3", ".ogg", ".wav", ".flac", ".mod", ".xm", ".it", ".s3m"]

/-- `Path(file).suffix.lower()`: the extension (including the dot) of the
final path component, empty when the name has no dot, starts with its only
dot, or ends with its last dot (CPython `pathlib` rule
`0 < name.rfind(".") < len(name) - 1`), lowercased ASCII-wise. -/
def lowerSuffix (p : String) : List Char :=
  let name := (p.toList.splitOn '/').getLastD []
  let suff :=
    match name.reverse.indexOf? '.' with
    | none => []
    | some j =>
        let i := name.length - 1 - j
        if 0 < i ∧ i < name.length - 1 then name.drop i else []
  suff.map Char.toLower

/-- `Path(file).suffix.lower() in AudioFormats.EXTENSIONS` (source line 50). -/
def hasAudioExt (p : String) : Bool := EXTENSIONS.contains ⟨lowerSuffix p⟩

/-- `PlaylistManager.add_files` (source lines 48-52): append every file with
a supported extension, then re-snapshot `original_order`. -/
def add_files (pm : PlaylistManager) (files : List String) : PlaylistManager :=
  let pl := pm.playlist ++ files.filter hasAudioExt
  { pm with playlist := pl, original_order := pl }

/-- `PlaylistManager.add_folder` (source lines 54-64). The filesystem
traversal `folder_path.rglob "*"` is supplied as the list `entries` of paths
it yields, in traversal order; returns the updated manager and the count of
entries appended. -/
def add_folder (pm : PlaylistManager) (entries : List String) :
    PlaylistManager × Nat :=
  let good := entries.filter hasAudioExt
  let pl := pm.playlist ++ good
  ({ pm with playlist := pl, original_order := pl }, good.length)

/-- `sorted(indices, reverse=True)` (source line 67): the indices in
descending order. -/
def sortDesc (indices : List Int) : List Int :=
  indices.insertionSort (· ≥ ·)

/-- One iteration of the `remove_items` loop body (source lines 67-73):
skip an out-of-range index; otherwise delete the entry and adjust
`current_index` (equal index resets it to `-1`, smaller index decrements
it). -/
def removeStep (pm : PlaylistManager) (idx : Int) : PlaylistManager :=
  if 0 ≤ idx ∧ idx < (pm.playlist.length : Int) then
    let pm' := { pm with playlist := pm.playlist.eraseIdx idx.toNat }
    if idx = pm'.current_index then { pm' with current_index := -1 }
    else if idx < pm'.current_index then
      { pm' with current_index := pm'.current_index - 1 }
    else pm'
  else pm

/-- `PlaylistManager.remove_items` (source lines 66-78): process the indices
in descending order, re-snapshot `original_order`, then clamp
`current_index` to the last position when the list is non-empty and the
cursor fell beyond it. -/
def remove_items (pm : PlaylistManager) (indices : List Int) : PlaylistManager :=
  let pm' := (sortDesc indices).foldl removeStep pm
  let pm' := { pm' with original_order := pm'.playlist }
  if pm'.playlist ≠ [] ∧ (pm'.playlist.length : Int) ≤ pm'.current_index then
    { pm' with current_index := (pm'.playlist.length : Int) - 1 }
  else pm'

/-- `PlaylistManager.clear` (source lines 80-83). -/
def clear (pm : PlaylistManager) : PlaylistManager :=
  { pm with playlist := [], original_order := [], current_index := -1 }

/-- `self.playlist[self.current_index] if self.current_index >= 0 else None`
(source lines 97 and 115): `none` when the indexing raises `IndexError`,
otherwise the optional current track. -/
def currentTrackOf (pm : PlaylistManager) : Option (Option String) :=
  if 0 ≤ pm.current_index then
    match pm.playlist[pm.current_index.toNat]? with
    | some t => some (some t)
    | none => none
  else some none

/-- `PlaylistManager._apply_shuffle` (source lines 93-109), with
`random.shuffle` injected as `shuffler`. The Python truthiness test
`if current_track:` passes only for a non-`None`, non-empty string. -/
def apply_shuffle (shuffler : List String → List String)
    (pm : PlaylistManager) : Option PlaylistManager :=
  if pm.playlist = [] then some pm
  else
    match currentTrackOf pm with
    | none => none
    | some (some t) =>
        if t ≠ "" then
          some { pm with
                 playlist :=
                   t :: shuffler (pm.playlist.eraseIdx pm.current_index.toNat),
                 current_index := 0 }
        else some { pm with playlist := shuffler pm.playlist }
    | some none => some { pm with playlist := shuffler pm.playlist }

/-- `PlaylistManager._restore_original_order` (source lines 111-119). -/
def restore_original_order (pm : PlaylistManager) : Option PlaylistManager :=
  if pm.original_order = [] then some pm
  else
    match currentTrackOf pm with
    | none => none
    | some ct =>
        let pm' := { pm with playlist := pm.original_order }
        match ct with
        | some t =>
            if t ≠ "" ∧ t ∈ pm'.playlist then
              some { pm' with current_index := (pm'.playlist.indexOf t : Int) }
            else some pm'
        | none => some pm'

/-- `PlaylistManager.toggle_shuffle` (source lines 85-91). -/
def toggle_shuffle (shuffler : List String → List String)
    (pm : PlaylistManager) : Option PlaylistManager :=
  let pm' := { pm with shuffle_mode := !pm.shuffle_mode }
  if pm'.shuffle_mode then apply_shuffle shuffler pm'
  else restore_original_order pm'

/-- `PlaylistManager.get_next_index` (source lines 124-131). -/
def get_next_index (pm : PlaylistManager) : Int :=
  if pm.playlist = [] then -1
  else if pm.repeat_mode = 1 then pm.current_index
  else (pm.current_index + 1) % (pm.playlist.length : Int)

/-- `PlaylistManager.get_prev_index` (source lines 133-140). -/
def get_prev_index (pm : PlaylistManager) : Int :=
  if pm.playlist = [] then -1
  else if pm.repeat_mode = 1 then pm.current_index
  else (pm.current_index - 1) % (pm.playlist.length : Int)

/-- The cursor update `self.playlist_manager.current_index = next_index`
performed by `VinylPlayer.next_track` (source lines 531-532), used to
iterate `get_next_index`. -/
def stepNext (pm : PlaylistManager) : PlaylistManager :=
  { pm with current_index := get_next_index pm }

/-- The cursor update performed by `VinylPlayer.prev_track`
(source lines 540-541), used to iterate `get_prev_index`. -/
def stepPrev (pm : PlaylistManager) : PlaylistManager :=
  { pm with current_index := get_prev_index pm }

/-- The playlist-manager plus playback-clock state of `VinylPlayer`
(source lines 255-256). -/
structure PlayerState where
  pm : PlaylistManager
  pb : PlaybackState
deriving DecidableEq

/-- What `load_and_play` surfaced to the user: nothing, or the
`messagebox.showerror("Load Error", ...)` dialog (source line 556). -/
inductive LoadReport where
  | silent : LoadReport
  | loadError : String → LoadReport
deriving DecidableEq

/-- `VinylPlayer.load_and_play` (source lines 545-571): out-of-range index
is a no-op; a failing `pygame.mixer.music.load` (injected as `loadFails`)
reports a load error and returns; on success the clock is re-anchored with
the probed track length, Playing phase, `start_time = now`,
`pause_accum = 0`, `last_pause = 0`. -/
def load_and_play (loadFails : String → Bool) (probe : String → ℚ) (now : ℚ)
    (s : PlayerState) (index : Int) : PlayerState × LoadReport :=
  if index < 0 ∨ (s.pm.playlist.length : Int) ≤ index then (s, .silent)
  else
    let path := s.pm.playlist.getD index.toNat ""
    if loadFails path then (s, .loadError path)
    else
      ({ s with pb :=
           { is_playing := true, is_paused := false,
             track_length := probe path, start_time := now,
             pause_accum := 0, last_pause := 0 } }, .silent)

/-- `VinylPlayer.next_track` (source lines 527-534): no-op on an empty
playlist, else move the cursor to `get_next_index` and load-and-play it. -/
def next_track (loadFails : String → Bool) (probe : String → ℚ) (now : ℚ)
    (s : PlayerState) : PlayerState × LoadReport :=
  if s.pm.playlist = [] then (s, .silent)
  else
    let ni := get_next_index s.pm
    let s' := { s with pm := { s.pm with current_index := ni } }
    load_and_play loadFails probe now s' ni

/-- `VinylPlayer.prev_track` (source lines 536-543). -/
def prev_track (loadFails : String → Bool) (probe : String → ℚ) (now : ℚ)
    (s : PlayerState) : PlayerState × LoadReport :=
  if s.pm.playlist = [] then (s, .silent)
  else
    let pi := get_prev_index s.pm
    let s' := { s with pm := { s.pm with current_index := pi } }
    load_and_play loadFails probe now s' pi

/-- `VinylPlayer._elapsed_time` (source lines 717-726), with the wall clock
`time.time()` injected as `now`. -/
def elapsed_time (pb : PlaybackState) (now : ℚ) : ℚ :=
  if pb.is_playing = false then 0
  else if pb.is_paused = true then
    max 0 ((pb.last_pause - pb.start_time) - pb.pause_accum)
  else
    max 0 ((now - pb.start_time) - pb.pause_accum)

/-- `VinylPlayer._seek_end` (source lines 626-651): no-op unless the clock
is in a non-Stopped phase with a positive track length; otherwise restart
playback at `sec = int(progress.get()) / 1000` seconds (the widget value is
a non-negative number of milliseconds, supplied here as `ms`), re-anchoring
`start_time = now - sec`, `pause_accum = 0`, and `last_pause = now` when
the clock was paused, `0` otherwise.  The phase flags are untouched. -/
def seek_end (now : ℚ) (ms : ℕ) (pb : PlaybackState) : PlaybackState :=
  if pb.is_playing = false ∨ pb.track_length ≤ 0 then pb
  else if 0 < pb.track_length then
    let sec : ℚ := (ms : ℚ) / 1000
    { pb with start_time := now - sec, pause_accum := 0,
              last_pause := if pb.is_paused then now else 0 }
  else pb

/-- The end-of-track action a tick decides on (source lines 711-715):
nothing, reload the current index (`repeat_mode == 1`), or advance to the
`get_next_index` target through the `next_track` path. -/
inductive EndAction where
  | keep : EndAction
  | reload : Int → EndAction
  | advance : Int → EndAction
deriving DecidableEq

/-- `VinylPlayer._handle_track_end` (source lines 711-715). -/
def handle_track_end (pm : PlaylistManager) : EndAction :=
  if pm.repeat_mode = 1 then .reload pm.current_index
  else .advance (get_next_index pm)

/-- The completion check of the per-tick poll `VinylPlayer._update_ui`
(source lines 683-691), with `pygame.mixer.music.get_busy()` injected as
`busy`: while Playing and not Paused with a non-busy backend, both the
near-end branch and the generic branch call `_handle_track_end`. -/
def tick_end_action (busy : Bool) (now : ℚ) (pm : PlaylistManager)
    (pb : PlaybackState) : EndAction :=
  if pb.is_playing = true then
    let elapsed := elapsed_time pb now
    if busy = false ∧ pb.is_paused = false then
      if pb.track_length ≠ 0 ∧ pb.track_length - 1/4 ≤ elapsed then
        handle_track_end pm
      else
        handle_track_end pm
    else .keep
  else .keep

/-- `current_index` is `-1` or a valid position (spec §3, data-model
invariant for `PlaylistStore`). -/
def ciInv (pm : PlaylistManager) : Prop :=
  pm.current_index = -1 ∨
    (0 ≤ pm.current_index ∧ pm.current_index < (pm.playlist.length : Int))

/-- `original_order` holds the same multiset of entries as `playlist`, and
is an exact snapshot of it whenever shuffle is off (spec §3, data-model
invariant for `originalOrder`). -/
def orderInv (pm : PlaylistManager) : Prop :=
  pm.original_order.Perm pm.playlist ∧
    (pm.shuffle_mode = false → pm.original_order = pm.playlist)

instance (pm : PlaylistManager) : Decidable (ciInv pm) := by
  unfold ciInv; infer_instance

instance (pm : PlaylistManager) : Decidable (orderInv pm) := by
  unfold orderInv; infer_instance

/-! ## Helper lemmas -/

theorem perm_cons_eraseIdx (l : List String) (i : Nat) (h : i < l.length) :
    l.Perm (l[i] :: l.eraseIdx i) := by
  conv_lhs => rw [← List.take_append_drop i l]
  rw [List.eraseIdx_eq_take_drop_succ]
  have hd : l[i] :: l.drop (i + 1) = l.drop i := List.getElem_cons_drop l i h
  rw [← hd]
  exact List.perm_middle

theorem removeStep_ciInv (pm : PlaylistManager) (idx : Int) (h : ciInv pm) :
    ciInv (removeStep pm idx) := by
  unfold removeStep
  dsimp only
  split
  · next hin =>
    have hlen : (pm.playlist.eraseIdx idx.toNat).length = pm.playlist.length - 1 := by
      rw [List.length_eraseIdx]
      simp only [if_pos (show idx.toNat < pm.playlist.length by omega)]
    split
    · next heq => left; rfl
    · next hne =>
      split
      · next hlt =>
        rcases h with h | h
        · omega
        · right
          simp only [hlen]
          constructor <;> [omega; (push_cast; omega)]
      · next hge =>
        rcases h with h | h
        · left; exact h
        · right
          simp only [hlen]
          constructor <;> [omega; (push_cast; omega)]
  · exact h

theorem foldl_removeStep_ciInv (l : List Int) (pm : PlaylistManager) (h : ciInv pm) :
    ciInv (l.foldl removeStep pm) := by
  induction l generalizing pm with
  | nil => exact h
  | cons a t ih => exact ih _ (removeStep_ciInv pm a h)

theorem remove_items_ciInv (pm : PlaylistManager) (indices : List Int)
    (h : ciInv pm) : ciInv (remove_items pm indices) := by
  unfold remove_items
  have h1 := foldl_removeStep_ciInv (sortDesc indices) pm h
  set t := (sortDesc indices).foldl removeStep pm with ht
  dsimp only
  split
  · next hcl =>
    rcases hcl with ⟨hne, hge⟩
    have hlp : t.playlist.length ≠ 0 := fun h0 => hne (List.length_eq_zero.mp h0)
    right
    dsimp only
    omega
  · next hcl =>
    exact h1

theorem load_and_play_pm (loadFails : String → Bool) (probe : String → ℚ)
    (now : ℚ) (s : PlayerState) (index : Int) :
    (load_and_play loadFails probe now s index).1.pm = s.pm := by
  unfold load_and_play
  split
  · rfl
  · dsimp only
    split <;> rfl

/-! ## Claims -/

/-- C1, counterexample: with the playback clock in Playing phase
(`is_playing = true`) before the call, a failing load reports the error but
leaves the clock still Playing — it is not reset to the Stopped defaults, so
the claim is false for that prior clock state. -/
theorem C1_counterexample :
    (load_and_play (fun _ => true) (fun _ => 0) 7
        ⟨⟨["a"], ["a"], 0, 0, false⟩, ⟨true, false, 100, 5, 0, 0⟩⟩ 0).2 =
      LoadReport.loadError "a" ∧
    ¬ ((load_and_play (fun _ => true) (fun _ => 0) 7
        ⟨⟨["a"], ["a"], 0, 0, false⟩, ⟨true, false, 100, 5, 0, 0⟩⟩ 0).1.pb.is_playing
          = false) := by
  decide

/-- C1 (amended): when the backend load fails on an in-range track,
`load_and_play` reports a load error and returns with the whole player state
unchanged — the clock keeps its prior state (it is Stopped afterwards only if
it already was), and the playlist cursor is left pointing at the failed
track. -/
theorem C1_load_failure_leaves_state (loadFails : String → Bool)
    (probe : String → ℚ) (now : ℚ) (s : PlayerState) (index : Int)
    (h0 : 0 ≤ index) (h1 : index < (s.pm.playlist.length : Int))
    (hf : loadFails (s.pm.playlist.getD index.toNat "") = true) :
    load_and_play loadFails probe now s index =
      (s, LoadReport.loadError (s.pm.playlist.getD index.toNat "")) := by
  have hcond : ¬ (index < 0 ∨ (s.pm.playlist.length : Int) ≤ index) := by omega
  simp only [List.getD_eq_getElem?_getD] at hf ⊢
  simp [load_and_play, hcond, hf]

/-- C1 witness: the amended theorem at a concrete failing load. -/
theorem C1_witness :
    load_and_play (fun _ => true) (fun _ => 0) 7
        ⟨⟨["a"], ["a"], 0, 0, false⟩, PlaybackState.reset⟩ 0 =
      (⟨⟨["a"], ["a"], 0, 0, false⟩, PlaybackState.reset⟩,
        LoadReport.loadError "a") :=
  C1_load_failure_leaves_state _ _ _ _ _ (by decide) (by decide) (by decide)

/-- C2: `_elapsed_time` returns `0` when the clock is Stopped
(`is_playing = false`); when Paused it returns
`max 0 ((last_pause - start_time) - pause_accum)`, a value independent of
the current time; when Playing it returns
`max 0 ((now - start_time) - pause_accum)`. -/
theorem C2_elapsed_cases (pb : PlaybackState) (now : ℚ) :
    (pb.is_playing = false → elapsed_time pb now = 0) ∧
    (pb.is_playing = true → pb.is_paused = true →
      elapsed_time pb now =
        max 0 ((pb.last_pause - pb.start_time) - pb.pause_accum) ∧
      ∀ now₂ : ℚ, elapsed_time pb now = elapsed_time pb now₂) ∧
    (pb.is_playing = true → pb.is_paused = false →
      elapsed_time pb now = max 0 ((now - pb.start_time) - pb.pause_accum)) := by
  refine ⟨fun h => by simp [elapsed_time, h],
    fun h hp => ⟨by simp [elapsed_time, h, hp], fun now₂ => by simp [elapsed_time, h, hp]⟩,
    fun h hp => by simp [elapsed_time, h, hp]⟩

/-- C2 witness: the three phases at concrete clock states. -/
theorem C2_witness :
    elapsed_time ⟨false, false, 0, 0, 0, 0⟩ 9 = 0 ∧
    elapsed_time ⟨true, true, 100, 2, 1, 10⟩ 50 = max 0 ((10 - 2) - 1) ∧
    elapsed_time ⟨true, true, 100, 2, 1, 10⟩ 50 =
      elapsed_time ⟨true, true, 100, 2, 1, 10⟩ 9999 ∧
    elapsed_time ⟨true, false, 100, 2, 1, 10⟩ 50 = max 0 ((50 - 2) - 1) :=
  ⟨(C2_elapsed_cases _ 9).1 rfl,
   ((C2_elapsed_cases _ 50).2.1 rfl rfl).1,
   ((C2_elapsed_cases _ 50).2.1 rfl rfl).2 9999,
   (C2_elapsed_cases _ 50).2.2 rfl rfl⟩

/-- C3: for a clock in a non-Stopped phase with positive track length,
`_seek_end` at widget value `ms` (so `S = ms / 1000` seconds) re-anchors
`start_time = now - S`, zeroes `pause_accum`, sets `last_pause = now` when
the clock was Paused and `0` otherwise, preserves the phase flags, and
`_elapsed_time` evaluated at the same instant returns `S`. -/
theorem C3_seek_resets_anchor (now : ℚ) (ms : ℕ) (pb : PlaybackState)
    (hp : pb.is_playing = true) (hl : 0 < pb.track_length) :
    seek_end now ms pb =
      { pb with start_time := now - (ms : ℚ) / 1000, pause_accum := 0,
                last_pause := if pb.is_paused then now else 0 } ∧
    (seek_end now ms pb).is_playing = pb.is_playing ∧
    (seek_end now ms pb).is_paused = pb.is_paused ∧
    elapsed_time (seek_end now ms pb) now = (ms : ℚ) / 1000 := by
  have hno : ¬ (pb.is_playing = false ∨ pb.track_length ≤ 0) := by
    rw [hp, not_or]
    exact ⟨by simp, not_le.mpr hl⟩
  have hform : seek_end now ms pb =
      { pb with start_time := now - (ms : ℚ) / 1000, pause_accum := 0,
                last_pause := if pb.is_paused then now else 0 } := by
    simp [seek_end, hno, hl]
  refine ⟨hform, by rw [hform], by rw [hform], ?_⟩
  rw [hform]
  have hsec : (0 : ℚ) ≤ (ms : ℚ) / 1000 := by positivity
  have harith : now - (now - (ms : ℚ) / 1000) - 0 = (ms : ℚ) / 1000 := by ring
  cases hpa : pb.is_paused <;>
    simp [elapsed_time, hp, hpa, harith, max_eq_right hsec]

/-- C3 witness: a seek to 2000 ms while Paused, evaluated concretely. -/
theorem C3_witness :
    seek_end 50 2000 ⟨true, true, 200, 0, 3, 9⟩ =
      { is_playing := true, is_paused := true, track_length := 200,
        start_time := 50 - (2000 : ℕ) / 1000, pause_accum := 0,
        last_pause := 50 } ∧
    elapsed_time (seek_end 50 2000 ⟨true, true, 200, 0, 3, 9⟩) 50 =
      ((2000 : ℕ) : ℚ) / 1000 :=
  ⟨(C3_seek_resets_anchor 50 2000 _ rfl (by norm_num)).1,
   (C3_seek_resets_anchor 50 2000 _ rfl (by norm_num)).2.2.2⟩

/-- C4: whenever the per-tick poll runs while Playing, not Paused, and the
backend busy flag is false, the tick decides the end-of-track action
whatever `now` (hence whatever `elapsed` is): reload of the unchanged
`current_index` under `repeat_mode = 1`, and advance to the
`get_next_index` target otherwise — both branches of the completion check
having this same effect. -/
theorem C4_tick_completion (busy : Bool) (now : ℚ) (pm : PlaylistManager)
    (pb : PlaybackState) (hp : pb.is_playing = true)
    (hpa : pb.is_paused = false) (hb : busy = false) :
    tick_end_action busy now pm pb = handle_track_end pm ∧
    (∀ now₂ : ℚ, tick_end_action busy now₂ pm pb = handle_track_end pm) ∧
    (pm.repeat_mode = 1 →
      tick_end_action busy now pm pb = EndAction.reload pm.current_index) ∧
    (pm.repeat_mode ≠ 1 →
      tick_end_action busy now pm pb = EndAction.advance (get_next_index pm)) := by
  have key : ∀ n : ℚ, tick_end_action busy n pm pb = handle_track_end pm := by
    intro n
    simp [tick_end_action, hp, hpa, hb]
  refine ⟨key now, key, fun h1 => ?_, fun h1 => ?_⟩
  · rw [key now]
    simp [handle_track_end, h1]
  · rw [key now]
    simp [handle_track_end, h1]

/-- C4 witness: a non-busy playing tick far from the track end still ends
the track, in both repeat modes. -/
theorem C4_witness :
    tick_end_action false 0 ⟨["a", "b"], ["a", "b"], 0, 0, false⟩
        ⟨true, false, 30, 0, 0, 0⟩ =
      EndAction.advance (get_next_index ⟨["a", "b"], ["a", "b"], 0, 0, false⟩) ∧
    tick_end_action false 0 ⟨["a", "b"], ["a", "b"], 0, 1, false⟩
        ⟨true, false, 30, 0, 0, 0⟩ = EndAction.reload 0 :=
  ⟨(C4_tick_completion false 0 _ _ rfl rfl rfl).2.2.2 (by decide),
   (C4_tick_completion false 0 _ _ rfl rfl rfl).2.2.1 rfl⟩

/-- C6: the `remove_items` loop skips out-of-range indices; removing an
in-range index below `current_index` erases that entry and decrements the
cursor by exactly 1, removing `current_index` itself resets it to `-1`, and
removing a higher index leaves it unchanged; after the loop the cursor is
clamped to `length - 1` exactly when the list is non-empty and the cursor
exceeds it (so a non-empty result always has `current_index < length`), and
an emptied playlist leaves the cursor at `-1` from any valid starting
state. -/
theorem C6_remove_items_cursor (pm : PlaylistManager) (k : Int) (l : List Int) :
    (0 ≤ k → k < (pm.playlist.length : Int) → k < pm.current_index →
      (removeStep pm k).playlist = pm.playlist.eraseIdx k.toNat ∧
      (removeStep pm k).current_index = pm.current_index - 1) ∧
    (0 ≤ k → k < (pm.playlist.length : Int) → k = pm.current_index →
      (removeStep pm k).current_index = -1) ∧
    (0 ≤ k → k < (pm.playlist.length : Int) → pm.current_index < k →
      (removeStep pm k).playlist = pm.playlist.eraseIdx k.toNat ∧
      (removeStep pm k).current_index = pm.current_index) ∧
    (¬ (0 ≤ k ∧ k < (pm.playlist.length : Int)) → removeStep pm k = pm) ∧
    ((remove_items pm l).playlist ≠ [] →
      (remove_items pm l).current_index <
        ((remove_items pm l).playlist.length : Int)) ∧
    (ciInv pm → (remove_items pm l).playlist = [] →
      (remove_items pm l).current_index = -1) ∧
    ((remove_items pm []).current_index =
      if pm.playlist ≠ [] ∧ (pm.playlist.length : Int) ≤ pm.current_index then
        (pm.playlist.length : Int) - 1
      else pm.current_index) := by
  refine ⟨?_, ?_, ?_, ?_, ?_, ?_, ?_⟩
  · intro hk0 hk1 hlt
    unfold removeStep
    rw [if_pos ⟨hk0, hk1⟩]
    dsimp only
    rw [if_neg (by omega), if_pos hlt]
    exact ⟨rfl, rfl⟩
  · intro hk0 hk1 heq
    unfold removeStep
    rw [if_pos ⟨hk0, hk1⟩]
    dsimp only
    rw [if_pos heq]
  · intro hk0 hk1 hgt
    unfold removeStep
    rw [if_pos ⟨hk0, hk1⟩]
    dsimp only
    rw [if_neg (by omega), if_neg (by omega)]
    exact ⟨rfl, rfl⟩
  · intro hout
    unfold removeStep
    rw [if_neg hout]
  · unfold remove_items
    dsimp only
    split
    · next hcl =>
      intro _
      dsimp only
      omega
    · next hcl =>
      intro hne
      dsimp only at hcl hne ⊢
      rcases not_and_or.mp hcl with hc | hc
      · exact absurd hne (by simpa using hc)
      · omega
  · intro hci hempty
    have h1 := remove_items_ciInv pm l hci
    rcases h1 with h1 | h1
    · exact h1
    · rw [hempty] at h1
      simp at h1
      omega
  · unfold remove_items sortDesc
    dsimp only [List.insertionSort, List.foldl]
    split
    · next hcl => rfl
    · next hcl => rfl

/-- C6 witness: the spec scenario `[A, B, C]`, cursor on B, removing index 0
decrements the cursor; removing the cursor itself resets it; removing a
higher index keeps it; an out-of-range index is skipped; the clamp fires on
an empty removal call with a stale cursor. -/
theorem C6_witness :
    ((removeStep ⟨["A", "B", "C"], ["A", "B", "C"], 1, 0, false⟩ 0).playlist =
        ["B", "C"] ∧
      (removeStep ⟨["A", "B", "C"], ["A", "B", "C"], 1, 0, false⟩ 0).current_index
        = 0) ∧
    (removeStep ⟨["A", "B", "C"], ["A", "B", "C"], 1, 0, false⟩ 1).current_index
      = -1 ∧
    (removeStep ⟨["A", "B", "C"], ["A", "B", "C"], 1, 0, false⟩ 2).current_index
      = 1 ∧
    removeStep ⟨["A", "B", "C"], ["A", "B", "C"], 1, 0, false⟩ 5 =
      ⟨["A", "B", "C"], ["A", "B", "C"], 1, 0, false⟩ ∧
    (remove_items ⟨["A", "B", "C"], ["A", "B", "C"], 7, 0, false⟩ []).current_index
      = 2 :=
  ⟨⟨((C6_remove_items_cursor _ 0 []).1 (by decide) (by decide) (by decide)).1,
    ((C6_remove_items_cursor _ 0 []).1 (by decide) (by decide) (by decide)).2⟩,
   (C6_remove_items_cursor _ 1 []).2.1 (by decide) (by decide) (by decide),
   ((C6_remove_items_cursor _ 2 []).2.2.1 (by decide) (by decide) (by decide)).2,
   (C6_remove_items_cursor _ 5 []).2.2.2.1 (by decide),
   (C6_remove_items_cursor ⟨["A", "B", "C"], ["A", "B", "C"], 7, 0, false⟩ 0
      []).2.2.2.2.2.2.trans (by decide)⟩

theorem iter_stepNext_fields (pm : PlaylistManager) (n : ℕ) :
    (stepNext^[n] pm).playlist = pm.playlist ∧
    (stepNext^[n] pm).repeat_mode = pm.repeat_mode := by
  induction n with
  | zero => exact ⟨rfl, rfl⟩
  | succ k ih =>
      rw [Function.iterate_succ_apply']
      exact ⟨ih.1, ih.2⟩

theorem iter_stepPrev_fields (pm : PlaylistManager) (n : ℕ) :
    (stepPrev^[n] pm).playlist = pm.playlist ∧
    (stepPrev^[n] pm).repeat_mode = pm.repeat_mode := by
  induction n with
  | zero => exact ⟨rfl, rfl⟩
  | succ k ih =>
      rw [Function.iterate_succ_apply']
      exact ⟨ih.1, ih.2⟩

theorem iter_stepNext_ci (pm : PlaylistManager) (h0 : pm.repeat_mode = 0)
    (hne : pm.playlist ≠ []) (n : ℕ) :
    (stepNext^[n + 1] pm).current_index =
      (pm.current_index + (n + 1)) % (pm.playlist.length : Int) := by
  induction n with
  | zero =>
      rw [Function.iterate_one]
      show get_next_index pm = _
      unfold get_next_index
      rw [if_neg hne, if_neg (by omega)]
      norm_num
  | succ k ih =>
      rw [Function.iterate_succ_apply']
      show get_next_index (stepNext^[k + 1] pm) = _
      have hfields := iter_stepNext_fields pm (k + 1)
      unfold get_next_index
      rw [hfields.1, hfields.2, if_neg hne, if_neg (by omega), ih,
        Int.emod_add_emod]
      congr 1
      push_cast
      ring

theorem iter_stepPrev_ci (pm : PlaylistManager) (h0 : pm.repeat_mode = 0)
    (hne : pm.playlist ≠ []) (n : ℕ) :
    (stepPrev^[n + 1] pm).current_index =
      (pm.current_index - (n + 1)) % (pm.playlist.length : Int) := by
  induction n with
  | zero =>
      rw [Function.iterate_one]
      show get_prev_index pm = _
      unfold get_prev_index
      rw [if_neg hne, if_neg (by omega)]
      norm_num
  | succ k ih =>
      rw [Function.iterate_succ_apply']
      show get_prev_index (stepPrev^[k + 1] pm) = _
      have hfields := iter_stepPrev_fields pm (k + 1)
      unfold get_prev_index
      rw [hfields.1, hfields.2, if_neg hne, if_neg (by omega), ih,
        sub_eq_add_neg ((pm.current_index - (↑k + 1)) % (pm.playlist.length : Int)),
        Int.emod_add_emod]
      congr 1
      push_cast
      ring

/-- C7: on a non-empty playlist with repeat Off and a valid cursor,
`get_next_index` is `(current_index + 1) % length` and `get_prev_index` is
`(current_index - 1) % length` (wrapping from 0 back to the last index);
iterating the `next` cursor update `length` times returns to the original
index, likewise for `prev`; and both return `-1` on an empty playlist. -/
theorem C7_wraparound_cycle (pm : PlaylistManager) (hne : pm.playlist ≠ [])
    (h0 : pm.repeat_mode = 0) (hlo : 0 ≤ pm.current_index)
    (hhi : pm.current_index < (pm.playlist.length : Int)) :
    get_next_index pm = (pm.current_index + 1) % (pm.playlist.length : Int) ∧
    get_prev_index pm = (pm.current_index - 1) % (pm.playlist.length : Int) ∧
    (pm.current_index = 0 →
      get_prev_index pm = (pm.playlist.length : Int) - 1) ∧
    (stepNext^[pm.playlist.length] pm).current_index = pm.current_index ∧
    (stepPrev^[pm.playlist.length] pm).current_index = pm.current_index ∧
    (∀ q : PlaylistManager, q.playlist = [] →
      get_next_index q = -1 ∧ get_prev_index q = -1) := by
  have hlen : pm.playlist.length ≠ 0 := fun hz => hne (List.length_eq_zero.mp hz)
  have hlpos : (0 : Int) < (pm.playlist.length : Int) := by omega
  refine ⟨?_, ?_, ?_, ?_, ?_, ?_⟩
  · unfold get_next_index
    rw [if_neg hne, if_neg (by omega)]
  · unfold get_prev_index
    rw [if_neg hne, if_neg (by omega)]
  · intro hz
    unfold get_prev_index
    rw [if_neg hne, if_neg (by omega), hz]
    have h1 : ((-1 : Int) + (pm.playlist.length : Int) * 1) % (pm.playlist.length : Int)
        = (-1 : Int) % (pm.playlist.length : Int) :=
      Int.add_mul_emod_self_left (-1) ((pm.playlist.length : Int)) 1
    rw [mul_one] at h1
    rw [show (0 : Int) - 1 = -1 by ring, ← h1,
      Int.emod_eq_of_lt (by omega) (by omega)]
    ring
  · obtain ⟨m, hm⟩ := Nat.exists_eq_succ_of_ne_zero hlen
    have hiter := iter_stepNext_ci pm h0 hne m
    rw [show m + 1 = pm.playlist.length from hm.symm] at hiter
    rw [hiter]
    have h1 : (pm.current_index + (pm.playlist.length : Int) * 1) %
        (pm.playlist.length : Int) =
          pm.current_index % (pm.playlist.length : Int) :=
      Int.add_mul_emod_self_left pm.current_index ((pm.playlist.length : Int)) 1
    rw [mul_one] at h1
    have h2 : pm.current_index + ((m : Int) + 1) =
        pm.current_index + (pm.playlist.length : Int) := by
      rw [hm]; push_cast; ring
    rw [h2, h1, Int.emod_eq_of_lt hlo hhi]
  · obtain ⟨m, hm⟩ := Nat.exists_eq_succ_of_ne_zero hlen
    have hiter := iter_stepPrev_ci pm h0 hne m
    rw [show m + 1 = pm.playlist.length from hm.symm] at hiter
    rw [hiter]
    have h1 : (pm.current_index + (pm.playlist.length : Int) * (-1)) %
        (pm.playlist.length : Int) =
          pm.current_index % (pm.playlist.length : Int) :=
      Int.add_mul_emod_self_left pm.current_index ((pm.playlist.length : Int)) (-1)
    have h2 : pm.current_index - ((m : Int) + 1) =
        pm.current_index + (pm.playlist.length : Int) * (-1) := by
      rw [hm]; push_cast; ring
    rw [h2, h1, Int.emod_eq_of_lt hlo hhi]
  · intro q hq
    unfold get_next_index get_prev_index
    rw [if_pos hq, if_pos hq]
    exact ⟨rfl, rfl⟩

/-- C7 witness: playlist of three tracks, cursor at 1: next is 2, prev is 0;
from cursor 0, prev wraps to the last index; three next (or prev) steps
return to the start; empty playlists give -1. -/
theorem C7_witness :
    get_next_index ⟨["a", "b", "c"], ["a", "b", "c"], 1, 0, false⟩ =
      (1 + 1) % (3 : Int) ∧
    get_prev_index ⟨["a", "b", "c"], ["a", "b", "c"], 0, 0, false⟩ =
      (3 : Int) - 1 ∧
    (stepNext^[3] ⟨["a", "b", "c"], ["a", "b", "c"], 1, 0, false⟩).current_index
      = 1 ∧
    (stepPrev^[3] ⟨["a", "b", "c"], ["a", "b", "c"], 1, 0, false⟩).current_index
      = 1 ∧
    get_next_index ⟨[], [], -1, 0, false⟩ = -1 :=
  ⟨(C7_wraparound_cycle ⟨["a", "b", "c"], ["a", "b", "c"], 1, 0, false⟩
      (by decide) rfl (by decide) (by decide)).1,
   (C7_wraparound_cycle ⟨["a", "b", "c"], ["a", "b", "c"], 0, 0, false⟩
      (by decide) rfl (by decide) (by decide)).2.2.1 rfl,
   (C7_wraparound_cycle ⟨["a", "b", "c"], ["a", "b", "c"], 1, 0, false⟩
      (by decide) rfl (by decide) (by decide)).2.2.2.1,
   (C7_wraparound_cycle ⟨["a", "b", "c"], ["a", "b", "c"], 1, 0, false⟩
      (by decide) rfl (by decide) (by decide)).2.2.2.2.1,
   ((C7_wraparound_cycle ⟨["x"], ["x"], 0, 0, false⟩ (by decide) rfl (by decide)
      (by decide)).2.2.2.2.2 ⟨[], [], -1, 0, false⟩ rfl).1⟩

/-- C10: on a non-empty playlist with repeat Off and no selected track
(`current_index = -1`), `get_next_index` returns 0 but `get_prev_index`
returns `(length - 2) % length` — the second-to-last index (not the last)
for playlists of length at least 2 — because the arithmetic is applied to
`-1` directly. -/
theorem C10_prev_from_unselected (pm : PlaylistManager)
    (hne : pm.playlist ≠ []) (h0 : pm.repeat_mode = 0)
    (hci : pm.current_index = -1) :
    get_next_index pm = 0 ∧
    get_prev_index pm =
      ((pm.playlist.length : Int) - 2) % (pm.playlist.length : Int) ∧
    (2 ≤ pm.playlist.length →
      get_prev_index pm = (pm.playlist.length : Int) - 2 ∧
      get_prev_index pm ≠ (pm.playlist.length : Int) - 1) := by
  have hlen : pm.playlist.length ≠ 0 := fun hz => hne (List.length_eq_zero.mp hz)
  have h1 : ((-2 : Int) + (pm.playlist.length : Int) * 1) % (pm.playlist.length : Int)
      = (-2 : Int) % (pm.playlist.length : Int) :=
    Int.add_mul_emod_self_left (-2) ((pm.playlist.length : Int)) 1
  have hprev : get_prev_index pm =
      ((pm.playlist.length : Int) - 2) % (pm.playlist.length : Int) := by
    unfold get_prev_index
    rw [if_neg hne, if_neg (by omega), hci]
    rw [mul_one] at h1
    rw [show ((-1 : Int) - 1) = -2 by ring,
      show ((pm.playlist.length : Int) - 2) = -2 + (pm.playlist.length : Int) by ring]
    exact h1.symm
  refine ⟨?_, hprev, fun h2 => ?_⟩
  · unfold get_next_index
    rw [if_neg hne, if_neg (by omega), hci]
    norm_num
  · have heq : get_prev_index pm = (pm.playlist.length : Int) - 2 := by
      rw [hprev, Int.emod_eq_of_lt (by omega) (by omega)]
    exact ⟨heq, by rw [heq]; omega⟩

/-- C10 witness: on `[a, b, c]` with no selection, next is 0 and prev is 1
(the second-to-last index), not 2. -/
theorem C10_witness :
    get_next_index ⟨["a", "b", "c"], ["a", "b", "c"], -1, 0, false⟩ = 0 ∧
    get_prev_index ⟨["a", "b", "c"], ["a", "b", "c"], -1, 0, false⟩ =
      (3 : Int) - 2 ∧
    get_prev_index ⟨["a", "b", "c"], ["a", "b", "c"], -1, 0, false⟩ ≠
      (3 : Int) - 1 :=
  ⟨(C10_prev_from_unselected _ (by decide) rfl rfl).1,
   ((C10_prev_from_unselected _ (by decide) rfl rfl).2.2 (by decide)).1,
   ((C10_prev_from_unselected _ (by decide) rfl rfl).2.2 (by decide)).2⟩

theorem currentTrackOf_neg (pm : PlaylistManager) (h : pm.current_index < 0) :
    currentTrackOf pm = some none := by
  unfold currentTrackOf
  rw [if_neg (by omega)]

theorem currentTrackOf_valid (pm : PlaylistManager) (h0 : 0 ≤ pm.current_index)
    (h1 : pm.current_index < (pm.playlist.length : Int)) :
    ∃ h : pm.current_index.toNat < pm.playlist.length,
      currentTrackOf pm = some (some (pm.playlist[pm.current_index.toNat])) := by
  have h : pm.current_index.toNat < pm.playlist.length := by omega
  refine ⟨h, ?_⟩
  unfold currentTrackOf
  rw [if_pos h0, List.getElem?_eq_getElem h]

/-- C5, counterexample: the round trip can fail to restore `currentIndex`
when the playlist holds an empty-string entry, because the Python
truthiness test `if current_track:` treats the empty-string current track
as "no current track".  Playlist `["", "a"]` (no duplicates), cursor on the
empty string at index 0, shuffle off, snapshot in sync; with the shuffle
permutation that reverses the list (a legitimate `random.shuffle` outcome,
checked below on the shuffled list), two toggles restore the track sequence
but end with `currentIndex = 1 ≠ 0`. -/
theorem C5_counterexample :
    toggle_shuffle List.reverse ⟨["", "a"], ["", "a"], 0, 0, false⟩ =
      some ⟨["a", ""], ["", "a"], 0, 0, true⟩ ∧
    toggle_shuffle List.reverse ⟨["a", ""], ["", "a"], 0, 0, true⟩ =
      some ⟨["", "a"], ["", "a"], 1, 0, false⟩ ∧
    (["", "a"] : List String).Nodup ∧
    (List.reverse ["", "a"]).Perm ["", "a"] ∧
    (1 : Int) ≠ 0 := by
  refine ⟨by decide, by decide, by decide, by decide, by decide⟩

/-- C5 (amended): for any playlist with no duplicate entries and no
empty-string entry, starting with shuffle off, a synced snapshot and a
valid cursor, `toggle_shuffle` twice restores `playlist` (and the snapshot)
to the exact sequence held before the first call, and restores
`current_index`; this holds for every injected shuffle permutation. -/
theorem C5_round_trip (shuffler : List String → List String)
    (pm : PlaylistManager) (hsh : pm.shuffle_mode = false)
    (hsnap : pm.original_order = pm.playlist) (hnd : pm.playlist.Nodup)
    (hempty : "" ∉ pm.playlist) (hci : ciInv pm) :
    ∃ pm₁ pm₂, toggle_shuffle shuffler pm = some pm₁ ∧
      toggle_shuffle shuffler pm₁ = some pm₂ ∧
      pm₂.playlist = pm.playlist ∧ pm₂.original_order = pm.original_order ∧
      pm₂.current_index = pm.current_index ∧ pm₂.shuffle_mode = false := by
  by_cases hpl : pm.playlist = []
  · refine ⟨{ pm with shuffle_mode := true }, { pm with shuffle_mode := false },
      ?_, ?_, rfl, rfl, rfl, rfl⟩
    · simp [toggle_shuffle, hsh, apply_shuffle, hpl]
    · simp [toggle_shuffle, restore_original_order, hsnap, hpl]
  · rcases hci with hneg | ⟨h0, h1⟩
    · refine ⟨⟨shuffler pm.playlist, pm.original_order, pm.current_index,
          pm.repeat_mode, true⟩,
        ⟨pm.playlist, pm.original_order, pm.current_index, pm.repeat_mode,
          false⟩, ?_, ?_, rfl, rfl, rfl, rfl⟩
      · have hct : currentTrackOf { pm with shuffle_mode := true } = some none :=
          currentTrackOf_neg _ (by simpa using (by omega : pm.current_index < 0))
        simp [toggle_shuffle, hsh, apply_shuffle, hpl, hct]
      · have hct : currentTrackOf
            ⟨shuffler pm.playlist, pm.playlist, pm.current_index,
              pm.repeat_mode, false⟩ = some none :=
          currentTrackOf_neg _ (by simpa using (by omega : pm.current_index < 0))
        simp [toggle_shuffle, restore_original_order, hsnap, hpl, hct]
    · obtain ⟨hb, hct⟩ := currentTrackOf_valid pm h0 h1
      have htmem : pm.playlist[pm.current_index.toNat] ∈ pm.playlist :=
        List.getElem_mem hb
      have htne : pm.playlist[pm.current_index.toNat] ≠ "" := fun he =>
        hempty (he ▸ htmem)
      refine ⟨⟨pm.playlist[pm.current_index.toNat] ::
            shuffler (pm.playlist.eraseIdx pm.current_index.toNat),
          pm.original_order, 0, pm.repeat_mode, true⟩,
        ⟨pm.playlist, pm.original_order, (pm.current_index.toNat : Int),
          pm.repeat_mode, false⟩, ?_, ?_, rfl, rfl, ?_, rfl⟩
      · have hct' : currentTrackOf { pm with shuffle_mode := true } =
            some (some (pm.playlist[pm.current_index.toNat])) := by
          unfold currentTrackOf at hct ⊢
          simpa using hct
        simp [toggle_shuffle, hsh, apply_shuffle, hpl, hct', htne]
      · have hone : pm.original_order ≠ [] := by rw [hsnap]; exact hpl
        have hcx : currentTrackOf
            ⟨pm.playlist[pm.current_index.toNat] ::
                shuffler (pm.playlist.eraseIdx pm.current_index.toNat),
              pm.playlist, (0 : Int), pm.repeat_mode, false⟩ =
              some (some (pm.playlist[pm.current_index.toNat])) := by
          unfold currentTrackOf
          simp
        have hidx : pm.playlist.indexOf pm.playlist[pm.current_index.toNat] =
            pm.current_index.toNat := List.indexOf_getElem hnd _ hb
        simp [toggle_shuffle, restore_original_order, hone, hcx, htne, hsnap,
          htmem, hidx, hpl]
      · show (pm.current_index.toNat : Int) = pm.current_index
        omega

/-- C5 witness: the spec scenario `[A, B, C, D]`, cursor on C (index 2),
with the reversing permutation as the injected shuffle. -/
theorem C5_witness :
    ∃ pm₁ pm₂,
      toggle_shuffle List.reverse
          ⟨["A", "B", "C", "D"], ["A", "B", "C", "D"], 2, 0, false⟩ =
        some pm₁ ∧
      toggle_shuffle List.reverse pm₁ = some pm₂ ∧
      pm₂.playlist = ["A", "B", "C", "D"] ∧
      pm₂.original_order = ["A", "B", "C", "D"] ∧
      pm₂.current_index = 2 ∧ pm₂.shuffle_mode = false :=
  C5_round_trip List.reverse ⟨["A", "B", "C", "D"], ["A", "B", "C", "D"], 2, 0, false⟩
    rfl rfl (by decide) (by decide) (by decide)

theorem restore_shape (pm pm' : PlaylistManager)
    (h : restore_original_order pm = some pm') :
    (pm.original_order = [] ∧ pm' = pm) ∨
    (pm'.playlist = pm.original_order ∧
      pm'.original_order = pm.original_order ∧
      pm'.shuffle_mode = pm.shuffle_mode) := by
  unfold restore_original_order at h
  dsimp only at h
  split at h
  · next hor => exact Or.inl ⟨hor, (Option.some.inj h).symm⟩
  · next hor =>
    right
    split at h
    · exact absurd h (by simp)
    · next ct heq =>
      split at h
      · next t =>
        split at h
        · rw [← Option.some.inj h]
          exact ⟨rfl, rfl, rfl⟩
        · rw [← Option.some.inj h]
          exact ⟨rfl, rfl, rfl⟩
      · rw [← Option.some.inj h]
        exact ⟨rfl, rfl, rfl⟩

theorem apply_shuffle_shape (shuffler : List String → List String)
    (pm pm' : PlaylistManager) (h : apply_shuffle shuffler pm = some pm') :
    pm' = pm ∨
    (pm'.original_order = pm.original_order ∧
      pm'.shuffle_mode = pm.shuffle_mode ∧
      ((∃ hb : pm.current_index.toNat < pm.playlist.length,
          pm'.playlist = pm.playlist[pm.current_index.toNat] ::
            shuffler (pm.playlist.eraseIdx pm.current_index.toNat) ∧
          pm'.current_index = 0) ∨
        (pm'.playlist = shuffler pm.playlist ∧
          pm'.current_index = pm.current_index))) := by
  unfold apply_shuffle at h
  split at h
  · exact Or.inl (Option.some.inj h).symm
  · right
    split at h
    · exact absurd h (by simp)
    · next t heq =>
      have hget : pm.playlist[pm.current_index.toNat]? = some t := by
        unfold currentTrackOf at heq
        split at heq
        · split at heq
          · next t' hg =>
            rw [hg]
            exact congrArg some (Option.some.inj (Option.some.inj heq))
          · exact absurd heq (by simp)
        · exact absurd (Option.some.inj heq) (by simp)
      obtain ⟨hb, hv⟩ := List.getElem?_eq_some.mp hget
      split at h
      · rw [← Option.some.inj h]
        exact ⟨rfl, rfl, Or.inl ⟨hb, by rw [hv], rfl⟩⟩
      · rw [← Option.some.inj h]
        exact ⟨rfl, rfl, Or.inr ⟨rfl, rfl⟩⟩
    · next heq =>
      rw [← Option.some.inj h]
      exact ⟨rfl, rfl, Or.inr ⟨rfl, rfl⟩⟩

theorem toggle_shuffle_orderInv (shuffler : List String → List String)
    (hperm : ∀ l, (shuffler l).Perm l) (pm : PlaylistManager)
    (hord : orderInv pm) (pm' : PlaylistManager)
    (h : toggle_shuffle shuffler pm = some pm') : orderInv pm' := by
  unfold toggle_shuffle at h
  by_cases hm : pm.shuffle_mode
  · rw [hm] at h
    simp only [Bool.not_true, Bool.false_eq_true, if_false] at h
    rcases restore_shape _ _ h with ⟨hor, rfl⟩ | ⟨hpl', hoo', hsm'⟩
    · dsimp only at hor ⊢
      have hpl : pm.playlist = [] := by
        have := hord.1
        rw [hor] at this
        exact this.symm.eq_nil
      exact ⟨by dsimp only; rw [hor, hpl], fun _ => by dsimp only; rw [hor, hpl]⟩
    · dsimp only at hpl' hoo'
      exact ⟨by rw [hpl', hoo'], fun _ => by rw [hpl', hoo']⟩
  · rw [Bool.not_eq_true] at hm
    rw [hm] at h
    simp only [Bool.not_false, if_true] at h
    rcases apply_shuffle_shape _ _ _ h with rfl | ⟨hoo', hsm', hrest⟩
    · exact ⟨hord.1, fun hf => by dsimp only at hf; exact absurd hf (by simp)⟩
    · dsimp only at hoo' hsm' hrest
      have hmode : pm'.shuffle_mode = true := by rw [hsm']
      refine ⟨?_, fun hf => absurd (hf ▸ hmode) (by simp)⟩
      rw [hoo']
      rcases hrest with ⟨hb, hcons, _⟩ | ⟨hwhole, _⟩
      · rw [hcons]
        exact hord.1.trans
          ((perm_cons_eraseIdx pm.playlist pm.current_index.toNat hb).trans
            (List.Perm.cons _
              (hperm (pm.playlist.eraseIdx pm.current_index.toNat)).symm))
      · rw [hwhole]
        exact hord.1.trans (hperm pm.playlist).symm

theorem toggle_shuffle_ciInv (shuffler : List String → List String)
    (hperm : ∀ l, (shuffler l).Perm l) (pm : PlaylistManager)
    (hci : ciInv pm) (hord : orderInv pm) :
    ∃ pm', toggle_shuffle shuffler pm = some pm' ∧ ciInv pm' := by
  by_cases hm : pm.shuffle_mode
  · -- leaving shuffle: the restore branch
    by_cases hor : pm.original_order = []
    · refine ⟨{ pm with shuffle_mode := false }, ?_, hci⟩
      simp [toggle_shuffle, hm, restore_original_order, hor]
    · rcases hci with hneg | ⟨h0, h1⟩
      · refine ⟨⟨pm.original_order, pm.original_order, pm.current_index,
          pm.repeat_mode, false⟩, ?_, Or.inl hneg⟩
        have hct : currentTrackOf { pm with shuffle_mode := false } = some none :=
          currentTrackOf_neg _ (by simpa using (by omega : pm.current_index < 0))
        simp [toggle_shuffle, hm, restore_original_order, hor, hct]
      · have hb : pm.current_index.toNat < pm.playlist.length := by omega
        have hct : currentTrackOf { pm with shuffle_mode := false } =
            some (some (pm.playlist[pm.current_index.toNat])) := by
          obtain ⟨hb', hc⟩ := currentTrackOf_valid pm h0 h1
          unfold currentTrackOf at hc ⊢
          simpa using hc
        have hlorig : pm.original_order.length = pm.playlist.length :=
          hord.1.length_eq
        by_cases hcond : pm.playlist[pm.current_index.toNat] ≠ "" ∧
            pm.playlist[pm.current_index.toNat] ∈ pm.original_order
        · refine ⟨⟨pm.original_order, pm.original_order,
            ((pm.original_order.indexOf pm.playlist[pm.current_index.toNat] : Nat) : Int),
            pm.repeat_mode, false⟩, ?_, Or.inr ⟨by positivity, ?_⟩⟩
          · simp [toggle_shuffle, hm, restore_original_order, hor, hct, hcond]
          · show ((pm.original_order.indexOf _ : Nat) : Int) < _
            have := List.indexOf_lt_length.mpr hcond.2
            simp only
            omega
        · refine ⟨⟨pm.original_order, pm.original_order, pm.current_index,
            pm.repeat_mode, false⟩, ?_, Or.inr ⟨h0, ?_⟩⟩
          · simp only [toggle_shuffle, hm, Bool.not_true, Bool.false_eq_true,
              if_false]
            unfold restore_original_order
            dsimp only
            rw [if_neg hor, hct]
            dsimp only
            rw [if_neg hcond]
          · show pm.current_index < ((pm.original_order.length : Nat) : Int)
            omega
  · -- entering shuffle: the apply branch
    rw [Bool.not_eq_true] at hm
    by_cases hpl : pm.playlist = []
    · refine ⟨{ pm with shuffle_mode := true }, ?_, hci⟩
      simp [toggle_shuffle, hm, apply_shuffle, hpl]
    · rcases hci with hneg | ⟨h0, h1⟩
      · refine ⟨⟨shuffler pm.playlist, pm.original_order, pm.current_index,
          pm.repeat_mode, true⟩, ?_, Or.inl hneg⟩
        have hct : currentTrackOf { pm with shuffle_mode := true } = some none :=
          currentTrackOf_neg _ (by simpa using (by omega : pm.current_index < 0))
        simp [toggle_shuffle, hm, apply_shuffle, hpl, hct]
      · have hb : pm.current_index.toNat < pm.playlist.length := by omega
        have hct : currentTrackOf { pm with shuffle_mode := true } =
            some (some (pm.playlist[pm.current_index.toNat])) := by
          obtain ⟨hb', hc⟩ := currentTrackOf_valid pm h0 h1
          unfold currentTrackOf at hc ⊢
          simpa using hc
        by_cases hemp : pm.playlist[pm.current_index.toNat] = ""
        · refine ⟨⟨shuffler pm.playlist, pm.original_order, pm.current_index,
            pm.repeat_mode, true⟩, ?_, Or.inr ⟨h0, ?_⟩⟩
          · simp [toggle_shuffle, hm, apply_shuffle, hpl, hct, hemp]
          · show pm.current_index < ((shuffler pm.playlist).length : Int)
            rw [(hperm pm.playlist).length_eq]
            omega
        · refine ⟨⟨pm.playlist[pm.current_index.toNat] ::
              shuffler (pm.playlist.eraseIdx pm.current_index.toNat),
            pm.original_order, 0, pm.repeat_mode, true⟩, ?_,
            Or.inr ⟨le_refl 0, ?_⟩⟩
          · simp [toggle_shuffle, hm, apply_shuffle, hpl, hct, hemp]
          · show (0 : Int) < ((pm.playlist[pm.current_index.toNat] ::
              shuffler (pm.playlist.eraseIdx pm.current_index.toNat)).length : Int)
            rw [List.length_cons]
            push_cast
            omega

theorem get_next_index_bounds (pm : PlaylistManager)
    (hne : pm.playlist ≠ []) (hci : ciInv pm) :
    get_next_index pm = -1 ∨
      (0 ≤ get_next_index pm ∧
        get_next_index pm < (pm.playlist.length : Int)) := by
  have hlen : pm.playlist.length ≠ 0 := fun hz => hne (List.length_eq_zero.mp hz)
  unfold get_next_index
  rw [if_neg hne]
  split
  · exact hci
  · right
    exact ⟨Int.emod_nonneg _ (by omega), Int.emod_lt_of_pos _ (by omega)⟩

theorem get_prev_index_bounds (pm : PlaylistManager)
    (hne : pm.playlist ≠ []) (hci : ciInv pm) :
    get_prev_index pm = -1 ∨
      (0 ≤ get_prev_index pm ∧
        get_prev_index pm < (pm.playlist.length : Int)) := by
  have hlen : pm.playlist.length ≠ 0 := fun hz => hne (List.length_eq_zero.mp hz)
  unfold get_prev_index
  rw [if_neg hne]
  split
  · exact hci
  · right
    exact ⟨Int.emod_nonneg _ (by omega), Int.emod_lt_of_pos _ (by omega)⟩

/-- C8: after the initial state and after every playlist operation
(`add_files`, `add_folder`, `remove_items`, `clear`, `toggle_shuffle` with
any permuting shuffle, and the next/previous cursor updates),
`original_order` holds the same multiset of entries as `playlist`, and is
an exact snapshot of `playlist` whenever shuffle is off — the snapshot
being retaken on every list mutation. -/
theorem C8_snapshot_invariant (s : PlayerState) (files entries : List String)
    (indices : List Int) (shuffler : List String → List String)
    (loadFails : String → Bool) (probe : String → ℚ) (now : ℚ)
    (hperm : ∀ l, (shuffler l).Perm l) (hord : orderInv s.pm) :
    orderInv initPlaylistManager ∧
    orderInv (add_files s.pm files) ∧
    orderInv (add_folder s.pm entries).1 ∧
    orderInv (remove_items s.pm indices) ∧
    orderInv (clear s.pm) ∧
    (∀ pm', toggle_shuffle shuffler s.pm = some pm' → orderInv pm') ∧
    orderInv (next_track loadFails probe now s).1.pm ∧
    orderInv (prev_track loadFails probe now s).1.pm := by
  refine ⟨by decide, ⟨List.Perm.refl _, fun _ => rfl⟩,
    ⟨List.Perm.refl _, fun _ => rfl⟩, ?_, ⟨List.Perm.nil, fun _ => rfl⟩,
    fun pm' h => toggle_shuffle_orderInv shuffler hperm s.pm hord pm' h, ?_, ?_⟩
  · unfold remove_items
    dsimp only
    split <;> exact ⟨List.Perm.refl _, fun _ => rfl⟩
  · unfold next_track
    dsimp only
    split
    · exact hord
    · rw [load_and_play_pm]
      exact ⟨hord.1, hord.2⟩
  · unfold prev_track
    dsimp only
    split
    · exact hord
    · rw [load_and_play_pm]
      exact ⟨hord.1, hord.2⟩

/-- C8 witness: the invariant-preservation theorem applied to a concrete
in-sync state, with the reversing permutation as the shuffle. -/
theorem C8_witness :
    orderInv initPlaylistManager ∧
    orderInv (add_files ⟨["a"], ["a"], 0, 0, false⟩ ["x.ogg"]) ∧
    orderInv (add_folder ⟨["a"], ["a"], 0, 0, false⟩ ["y.txt"]).1 ∧
    orderInv (remove_items ⟨["a"], ["a"], 0, 0, false⟩ [0]) ∧
    orderInv (clear ⟨["a"], ["a"], 0, 0, false⟩) ∧
    (∀ pm', toggle_shuffle List.reverse ⟨["a"], ["a"], 0, 0, false⟩ = some pm' →
      orderInv pm') ∧
    orderInv (next_track (fun _ => false) (fun _ => 0) 0
      ⟨⟨["a"], ["a"], 0, 0, false⟩, PlaybackState.reset⟩).1.pm ∧
    orderInv (prev_track (fun _ => false) (fun _ => 0) 0
      ⟨⟨["a"], ["a"], 0, 0, false⟩, PlaybackState.reset⟩).1.pm :=
  C8_snapshot_invariant ⟨⟨["a"], ["a"], 0, 0, false⟩, PlaybackState.reset⟩
    ["x.ogg"] ["y.txt"] [0] List.reverse (fun _ => false) (fun _ => 0) 0
    (fun l => List.reverse_perm l) (by decide)

/-- C9: after the initial state and after every playlist operation
(`add_files`, `add_folder`, `remove_items`, `clear`, `toggle_shuffle` with
any permuting shuffle) and every cursor update through `next_track` /
`prev_track`, `current_index` is `-1` or satisfies
`0 ≤ current_index < length`, starting from any state satisfying the data-
model invariants. -/
theorem C9_cursor_invariant (s : PlayerState) (files entries : List String)
    (indices : List Int) (shuffler : List String → List String)
    (loadFails : String → Bool) (probe : String → ℚ) (now : ℚ)
    (hperm : ∀ l, (shuffler l).Perm l) (hci : ciInv s.pm)
    (hord : orderInv s.pm) :
    ciInv initPlaylistManager ∧
    ciInv (add_files s.pm files) ∧
    ciInv (add_folder s.pm entries).1 ∧
    ciInv (remove_items s.pm indices) ∧
    ciInv (clear s.pm) ∧
    (∃ pm', toggle_shuffle shuffler s.pm = some pm' ∧ ciInv pm') ∧
    ciInv (next_track loadFails probe now s).1.pm ∧
    ciInv (prev_track loadFails probe now s).1.pm := by
  refine ⟨by decide, ?_, ?_, remove_items_ciInv s.pm indices hci, Or.inl rfl,
    toggle_shuffle_ciInv shuffler hperm s.pm hci hord, ?_, ?_⟩
  · rcases hci with h | ⟨ha, hb⟩
    · exact Or.inl h
    · right
      refine ⟨ha, ?_⟩
      show s.pm.current_index <
        ((s.pm.playlist ++ files.filter hasAudioExt).length : Int)
      rw [List.length_append]
      push_cast
      omega
  · rcases hci with h | ⟨ha, hb⟩
    · exact Or.inl h
    · right
      refine ⟨ha, ?_⟩
      show s.pm.current_index <
        ((s.pm.playlist ++ entries.filter hasAudioExt).length : Int)
      rw [List.length_append]
      push_cast
      omega
  · unfold next_track
    dsimp only
    split
    · exact hci
    · next hne =>
      rw [load_and_play_pm]
      rcases get_next_index_bounds s.pm hne hci with h | ⟨ha, hb⟩
      · exact Or.inl h
      · exact Or.inr ⟨ha, hb⟩
  · unfold prev_track
    dsimp only
    split
    · exact hci
    · next hne =>
      rw [load_and_play_pm]
      rcases get_prev_index_bounds s.pm hne hci with h | ⟨ha, hb⟩
      · exact Or.inl h
      · exact Or.inr ⟨ha, hb⟩

/-- C9 witness: the cursor-invariant theorem applied to a concrete valid
state, with the reversing permutation as the shuffle. -/
theorem C9_witness :
    ciInv initPlaylistManager ∧
    ciInv (add_files ⟨["a"], ["a"], 0, 0, false⟩ ["x.ogg"]) ∧
    ciInv (add_folder ⟨["a"], ["a"], 0, 0, false⟩ ["y.txt"]).1 ∧
    ciInv (remove_items ⟨["a"], ["a"], 0, 0, false⟩ [0]) ∧
    ciInv (clear ⟨["a"], ["a"], 0, 0, false⟩) ∧
    (∃ pm', toggle_shuffle List.reverse ⟨["a"], ["a"], 0, 0, false⟩ = some pm' ∧
      ciInv pm') ∧
    ciInv (next_track (fun _ => false) (fun _ => 0) 0
      ⟨⟨["a"], ["a"], 0, 0, false⟩, PlaybackState.reset⟩).1.pm ∧
    ciInv (prev_track (fun _ => false) (fun _ => 0) 0
      ⟨⟨["a"], ["a"], 0, 0, false⟩, PlaybackState.reset⟩).1.pm :=
  C9_cursor_invariant ⟨⟨["a"], ["a"], 0, 0, false⟩, PlaybackState.reset⟩
    ["x.ogg"] ["y.txt"] [0] List.reverse (fun _ => false) (fun _ => 0) 0
    (fun l => List.reverse_perm l) (by decide) (by decide)
